import Mathlib

/-!
Verification of the voice-finance-tracker core logic.

This file embeds, in Lean, the two pieces of logic of the repository that the
specification covers:

* the free-text transaction extraction engine `parseTransactionFromText`
  (route handler file, function `parseTransactionFromText`), together with the
  `/api/transcribe` endpoint control flow around it;
* the recording-lifecycle state machine of the `VoiceRecorder` component
  (`startRecording` / `stopRecording` / the `MediaRecorder.onstop` callback /
  the 5-second failsafe timeout), modelled as an explicit event system;
* the zustand transaction store operations `updateTransaction` and
  `removeTransaction`.

JavaScript strings are modelled as `List Char`, JavaScript numbers that hold
monetary amounts and confidence scores as `ℚ` (every number the code builds in
these roles is an exact multiple of 1/100, so exact rationals are faithful),
and the JavaScript regular expressions of the source as either a direct
scanning function (for the simple currency regex) or values of a small
backtracking regex core (`RE`, `mrun`) whose semantics follows the JS engine:
leftmost match position, alternation in written order, greedy and lazy
quantifiers over character classes with backtracking.
-/

/-! ## Character helpers (JS semantics on the ASCII range used by the source) -/

/-- Model of `String.prototype.toLowerCase` on the characters that occur here. -/
def jsLower (c : Char) : Char := c.toLower

/-- Model of the JS whitespace class `\s` on the characters that occur here. -/
def isSpaceJS (c : Char) : Bool :=
  c = ' ' || c = '\t' || c = '\n' || c = '\r' || c = Char.ofNat 11 || c = Char.ofNat 12

/-- Model of the JS word-character class (`\w`, used by `\b`): `[A-Za-z0-9_]`. -/
def isWordChar (c : Char) : Bool :=
  ('a' ≤ c && c ≤ 'z') || ('A' ≤ c && c ≤ 'Z') || c.isDigit || c = '_'

/-- The character class `[A-Za-z\s&']` of the vendor patterns. -/
def isVendorChar (c : Char) : Bool :=
  ('a' ≤ c && c ≤ 'z') || ('A' ≤ c && c ≤ 'Z') || isSpaceJS c || c = '&' ||
    c = Char.ofNat 39

/-- Model of `String.prototype.trim`. -/
def jsTrim (cs : List Char) : List Char :=
  ((cs.dropWhile isSpaceJS).reverse.dropWhile isSpaceJS).reverse

/-- Value of a digit string, as `parseInt` computes it on an all-digit string. -/
def digitsToNat (cs : List Char) : Nat :=
  cs.foldl (fun a c => a * 10 + (c.toNat - 48)) 0

/-! ## A small backtracking regex core

Enough to express the source's `amountPatterns` and `vendorPatterns`:
literals (case-insensitive, for the `/i` flag), sequencing, ordered
alternation, greedy `?`, greedy and lazy `+`, greedy `*` and greedy `{1,2}`
over character classes, the end anchor `$`, and two capture groups. -/

/-- The character classes quantified over in the source's regexes. -/
inductive CC where
  | digit
  | wsp
  | vchar
deriving DecidableEq

/-- Semantics of a character class. -/
def ccSem : CC → Char → Bool
  | .digit => Char.isDigit
  | .wsp => isSpaceJS
  | .vchar => isVendorChar

/-- Regex syntax. `grpA`/`grpB` are capture groups 1 and 2. -/
inductive RE where
  | eps
  | lit : List Char → RE
  | seq : RE → RE → RE
  | alt : RE → RE → RE
  | opt : RE → RE
  | grpA : RE → RE
  | grpB : RE → RE
  | plusG : CC → RE
  | plusL : CC → RE
  | starG : CC → RE
  | rep12 : CC → RE
  | eos
deriving DecidableEq

/-- Matcher state: remaining input and the two capture slots. -/
structure MState where
  rest : List Char
  gA : Option (List Char)
  gB : Option (List Char)
deriving DecidableEq

/-- Case-insensitive literal match: remove `p` (up to case) from the front. -/
def stripCI : List Char → List Char → Option (List Char)
  | [], cs => some cs
  | _ :: _, [] => none
  | p :: ps, c :: cs => if jsLower c = jsLower p then stripCI ps cs else none

/-- Length of the longest prefix of `cs` inside class `p`. -/
def charRun (p : CC) (cs : List Char) : Nat := (cs.takeWhile (ccSem p)).length

/-- The list `[hi, hi-1, ..., lo]` (empty when `hi < lo`). -/
def countsDesc (lo : Nat) : Nat → List Nat
  | 0 => if lo = 0 then [0] else []
  | n + 1 => if n + 1 < lo then [] else (n + 1) :: countsDesc lo n

/-- The list `[lo, lo+1, ..., hi]` (empty when `hi < lo`). -/
def countsAsc (lo hi : Nat) : List Nat :=
  (List.range (hi + 1 - lo)).map (fun i => lo + i)

/-- First successful attempt among a list of candidate repetition counts. -/
def firstSome (f : Nat → Option MState) : List Nat → Option MState
  | [] => none
  | n :: ns =>
    match f n with
    | some r => some r
    | none => firstSome f ns

/-- Backtracking matcher in continuation-passing style.  The continuation
receives the state after the current subexpression; alternatives are tried in
written order, greedy quantifiers try longer repetitions first, lazy ones
shorter first — the JS backtracking order. -/
def mrun : RE → MState → (MState → Option MState) → Option MState
  | .eps, st, k => k st
  | .lit p, st, k =>
    match stripCI p st.rest with
    | some r => k { st with rest := r }
    | none => none
  | .seq a b, st, k => mrun a st (fun st2 => mrun b st2 k)
  | .alt a b, st, k =>
    match mrun a st k with
    | some r => some r
    | none => mrun b st k
  | .opt a, st, k =>
    match mrun a st k with
    | some r => some r
    | none => k st
  | .grpA a, st, k =>
    mrun a st (fun st2 =>
      k { st2 with gA := some (st.rest.take (st.rest.length - st2.rest.length)) })
  | .grpB a, st, k =>
    mrun a st (fun st2 =>
      k { st2 with gB := some (st.rest.take (st.rest.length - st2.rest.length)) })
  | .plusG p, st, k =>
    firstSome (fun i => if (st.rest.take i).all (ccSem p) then
        k { st with rest := st.rest.drop i } else none)
      (countsDesc 1 (charRun p st.rest))
  | .plusL p, st, k =>
    firstSome (fun i => if (st.rest.take i).all (ccSem p) then
        k { st with rest := st.rest.drop i } else none)
      (countsAsc 1 (charRun p st.rest))
  | .starG p, st, k =>
    firstSome (fun i => if (st.rest.take i).all (ccSem p) then
        k { st with rest := st.rest.drop i } else none)
      (countsDesc 0 (charRun p st.rest))
  | .rep12 p, st, k =>
    firstSome (fun i => if (st.rest.take i).all (ccSem p) then
        k { st with rest := st.rest.drop i } else none)
      (countsDesc 1 (min 2 (charRun p st.rest)))
  | .eos, st, k => if st.rest.isEmpty then k st else none

/-- Unanchored search, as `text.match(re)`: try each start position from the
left, and at each position run the matcher with a trivially accepting
continuation. -/
def reSearch (re : RE) : List Char → Option MState
  | [] => mrun re { rest := [], gA := none, gB := none } some
  | c :: t =>
    match mrun re { rest := c :: t, gA := none, gB := none } some with
    | some st => some st
    | none => reSearch re t

/-- Sequence a list of regexes. -/
def seqs : List RE → RE
  | [] => .eps
  | [r] => r
  | r :: rs => .seq r (seqs rs)

/-- Ordered alternation of a list of regexes. -/
def alts : List RE → RE
  | [] => .eps
  | [r] => r
  | r :: rs => .alt r (alts rs)

/-- Literal regex from a string. -/
def litS (s : String) : RE := .lit s.toList

/-! ## Amount extraction

The source tries the currency regex `\$?(\d+(?:\.\d{1,2})?)` with `matchAll`
first and takes the first match; only when that regex matches nowhere does it
fall through to the five `amountPatterns`. -/

/-- Match of the currency regex `\$?(\d+(?:\.\d{1,2})?)` anchored at the start
of `cs`, returning the captured group (the numeric part without the `$`).
This is a direct implementation of the regex: the optional `$` is taken when
present and followed by a digit, `\d+` is greedy, and the optional fractional
part takes a `.` followed by one or two digits (greedily two). -/
def currencyTokenAt (cs : List Char) : Option (List Char) :=
  let body := if cs.head? = some '$' then cs.tail else cs
  let ds := body.takeWhile Char.isDigit
  if ds.isEmpty then none
  else
    match body.dropWhile Char.isDigit with
    | '.' :: r2 =>
      let fs := (r2.takeWhile Char.isDigit).take 2
      if fs.isEmpty then some ds else some (ds ++ '.' :: fs)
    | _ => some ds

/-- First match of the currency regex in reading order
(`dollarMatches[0][1]` in the source). -/
def firstCurrencyToken : List Char → Option (List Char)
  | [] => none
  | c :: rest =>
    match currencyTokenAt (c :: rest) with
    | some g => some g
    | none => firstCurrencyToken rest

/-- Model of `parseFloat` on a captured `digits(.digits)?` group. -/
def parseFloatQ (cs : List Char) : ℚ :=
  let ds := cs.takeWhile Char.isDigit
  (digitsToNat ds : ℚ) +
    (match cs.dropWhile Char.isDigit with
     | '.' :: fs => (digitsToNat (fs.takeWhile Char.isDigit) : ℚ) /
         (10 ^ (fs.takeWhile Char.isDigit).length : ℚ)
     | _ => 0)

/-- The five `amountPatterns` of the source, in order:
`(\d+)\s*(?:dollars?|bucks?|euro?s?)\s*(?:and\s*)?(\d+)?\s*(?:cents?)?`,
`(\d+)\s*(?:and\s*)?(\d+)\s*(?:cents?)?`,
`(\d+)\s*(?:point|dot)\s*(\d+)`,
`(\d+)\s*fifty`,
`(\d+)\s*twenty\s*five` (all with the `/i` flag). -/
def amountPatterns : List RE :=
  [ .seq (.grpA (.plusG .digit)) (seqs
      [ .starG .wsp
      , .alt (.seq (litS "dollar") (.opt (litS "s")))
          (.alt (.seq (litS "buck") (.opt (litS "s")))
            (.seq (litS "eur") (.seq (.opt (litS "o")) (.opt (litS "s")))))
      , .starG .wsp
      , .opt (.seq (litS "and") (.starG .wsp))
      , .opt (.grpB (.plusG .digit))
      , .starG .wsp
      , .opt (.seq (litS "cent") (.opt (litS "s"))) ])
  , .seq (.grpA (.plusG .digit)) (seqs
      [ .starG .wsp
      , .opt (.seq (litS "and") (.starG .wsp))
      , .grpB (.plusG .digit)
      , .starG .wsp
      , .opt (.seq (litS "cent") (.opt (litS "s"))) ])
  , .seq (.grpA (.plusG .digit)) (seqs
      [ .starG .wsp
      , .alt (litS "point") (litS "dot")
      , .starG .wsp
      , .grpB (.plusG .digit) ])
  , .seq (.grpA (.plusG .digit)) (.seq (.starG .wsp) (litS "fifty"))
  , .seq (.grpA (.plusG .digit)) (seqs
      [ .starG .wsp, litS "twenty", .starG .wsp, litS "five" ]) ]

/-- Amount from a matched fallback pattern:
`parseInt(match[1]) || 0` dollars plus `(parseInt(match[2]) || 0) / 100`
cents; an absent group 2 contributes `0`. -/
def patAmount (st : MState) : ℚ :=
  (digitsToNat (st.gA.getD []) : ℚ) + (digitsToNat (st.gB.getD []) : ℚ) / 100

/-- The fallback loop over `amountPatterns`: the first matching pattern wins,
and `0` is kept when none matches. -/
def amountFallback (cs : List Char) : ℚ :=
  match amountPatterns.findSome? (fun p => reSearch p cs) with
  | some st => patAmount st
  | none => 0

/-- Raw (pre-rounding) amount: first currency-regex match if any, otherwise
the fallback patterns. -/
def rawAmount (cs : List Char) : ℚ :=
  match firstCurrencyToken cs with
  | some g => parseFloatQ g
  | none => amountFallback cs

/-- Model of `Math.round`: floor of `x + 1/2` (JS rounds halves up). -/
def jsRound (q : ℚ) : ℤ := ⌊q + 1 / 2⌋

/-- Model of `Math.round(amount * 100) / 100`. -/
def round2 (q : ℚ) : ℚ := (jsRound (q * 100) : ℚ) / 100

/-! ## Vendor extraction -/

/-- The three `vendorPatterns` of the source, in order:
`(?:at|from|to)\s+([A-Za-z\s&']+?)(?:\s+(?:for|on|in|today|yesterday|this|last)|\.|$)`,
`(?:paid|spending|spent)\s+(?:at|to)\s+([A-Za-z\s&']+?)(?:\s+(?:for|on|in|today|yesterday|this|last)|\.|$)`,
`([A-Za-z\s&']+?)\s+(?:store|restaurant|cafe|shop|market|gas station)`
(all with the `/i` flag). -/
def vendorPatterns : List RE :=
  let vterm : RE :=
    .alt (.seq (.plusG .wsp) (alts
        [ litS "for", litS "on", litS "in", litS "today"
        , litS "yesterday", litS "this", litS "last" ]))
      (.alt (litS ".") .eos)
  [ seqs
      [ alts [litS "at", litS "from", litS "to"]
      , .plusG .wsp
      , .grpA (.plusL .vchar)
      , vterm ]
  , seqs
      [ alts [litS "paid", litS "spending", litS "spent"]
      , .plusG .wsp
      , .alt (litS "at") (litS "to")
      , .plusG .wsp
      , .grpA (.plusL .vchar)
      , vterm ]
  , seqs
      [ .grpA (.plusL .vchar)
      , .plusG .wsp
      , alts
          [ litS "store", litS "restaurant", litS "cafe"
          , litS "shop", litS "market", litS "gas station" ] ] ]

/-- Word boundary `\b` on the left of a match position. -/
def wordBreakBefore : Option Char → Bool
  | none => true
  | some p => !isWordChar p

/-- Word boundary `\b` immediately after a match. -/
def boundaryAfterOk : List Char → Bool
  | [] => true
  | c :: _ => !isWordChar c

/-- Try one alternative of `\b(the|a|an)\b` at the current position: strip the
word (case-insensitively) and check the right boundary. -/
def tryArticle (w : List Char) (cs : List Char) : Option (List Char) :=
  match stripCI w cs with
  | some r => if boundaryAfterOk r then some r else none
  | none => none

/-- Match of `(the|a|an)\b` at the current position, alternatives in written
order (the left `\b` is checked by the caller). -/
def articleAt (cs : List Char) : Option (List Char) :=
  match tryArticle "the".toList cs with
  | some r => some r
  | none =>
    match tryArticle "a".toList cs with
    | some r => some r
    | none => tryArticle "an".toList cs

/-- Scan for `replace(/\b(the|a|an)\b/gi, '')`: at each position with a word
boundary on the left, remove a matching article and continue after it (the
last character of an article is a word character, so scanning continues with
no boundary); other characters are kept.  The first argument is fuel (the
input length suffices, since every step consumes at least one character). -/
def stripArticlesGo : Nat → Option Char → List Char → List Char
  | 0, _, cs => cs
  | _ + 1, _, [] => []
  | fuel + 1, prev, c :: rest =>
    if wordBreakBefore prev then
      match articleAt (c :: rest) with
      | some r => stripArticlesGo fuel (some 'a') r
      | none => c :: stripArticlesGo fuel (some c) rest
    else c :: stripArticlesGo fuel (some c) rest

/-- Model of `vendor.replace(/\b(the|a|an)\b/gi, '')`. -/
def stripArticles (cs : List Char) : List Char :=
  stripArticlesGo cs.length none cs

/-- The cleanup applied to a captured vendor:
`match[1].trim()` then `.replace(/\b(the|a|an)\b/gi, '').trim()`. -/
def cleanVendor (m : List Char) : List Char := jsTrim (stripArticles (jsTrim m))

/-- Result of `text.match(pattern)` restricted to what the source looks at:
the capture group 1, with the `if (match && match[1])` truthiness test (a
failed match or an empty group is rejected). -/
def vendorMatchOf (p : RE) (cs : List Char) : Option (List Char) :=
  match reSearch p cs with
  | some st =>
    match st.gA with
    | some m => if m.isEmpty then none else some m
    | none => none
  | none => none

/-- The vendor loop of the source: for each pattern in order, a match
overwrites `vendor` with the cleaned capture, and the loop stops at the first
cleaned capture of length greater than 2. -/
def vendorLoop : List RE → List Char → List Char → List Char
  | [], _, v => v
  | p :: ps, cs, v =>
    match vendorMatchOf p cs with
    | some m =>
      let v2 := cleanVendor m
      if v2.length > 2 then v2 else vendorLoop ps cs v2
    | none => vendorLoop ps cs v

/-- Raw (pre-truncation) vendor, starting from `'Unknown'`. -/
def rawVendor (cs : List Char) : List Char :=
  vendorLoop vendorPatterns cs "Unknown".toList

/-- Model of `vendor.length > 30 ? vendor.substring(0, 30) + '...' : vendor`. -/
def truncateVendor (v : List Char) : List Char :=
  if v.length > 30 then v.take 30 ++ "...".toList else v

/-! ## Category classification -/

/-- The `categoryKeywords` table, in declaration order (JS object string keys
iterate in insertion order, so `Object.entries` yields exactly this list). -/
def categoryKeywords : List (String × List String) :=
  [ ("Food",
      [ "food", "restaurant", "cafe", "coffee", "lunch", "dinner", "breakfast", "brunch"
      , "chicken rice", "laksa", "bak kut teh", "char kway teow", "roti prata", "mee goreng"
      , "satay", "rojak", "carrot cake", "oyster omelette", "hokkien mee", "nasi lemak"
      , "dim sum", "wonton noodles", "fish ball noodles", "kaya toast", "soft boiled eggs"
      , "toast box", "ya kun", "kopitiam", "food republic", "food junction", "food court"
      , "hawker centre", "hawker center", "coffee shop", "zi char", "economy rice"
      , "kopi", "teh", "milo", "bubble tea", "fresh juice", "sugar cane"
      , "starbucks", "costa coffee", "the coffee bean", "dunkin", "mcdonalds", "kfc"
      , "burger king", "pizza hut", "dominos", "subway", "yoshinoya", "mos burger"
      , "old chang kee", "breadtalk", "four fingers", "long john silvers"
      , "eat", "meal", "snack", "drink", "food delivery", "takeaway", "dine in" ])
  , ("Transport",
      [ "mrt", "bus", "lrt", "ez-link", "simplygo", "smrt", "sbs transit", "public transport"
      , "train", "metro", "transport", "fare", "top up", "card"
      , "grab", "gojek", "comfort delgro", "comfort", "tada", "ryde", "taxi", "private hire"
      , "ride", "transport", "car rental", "car sharing"
      , "parking", "hdb parking", "mall parking", "street parking", "season parking"
      , "erp", "electronic road pricing", "coe", "road tax", "vehicle inspection"
      , "petrol", "diesel", "fuel", "esso", "shell", "spc", "caltex", "mobil"
      , "car wash", "oil change", "repair", "mechanic", "workshop", "service" ])
  , ("Shopping",
      [ "orchard road", "ion orchard", "ngee ann city", "plaza singapura", "bugis junction"
      , "vivocity", "marina bay sands", "citylink mall", "raffles city", "suntec city"
      , "causeway point", "jurong point", "tampines mall", "bedok mall", "westgate"
      , "shopping", "mall", "store", "retail"
      , "ntuc fairprice", "giant", "cold storage", "sheng siong", "prime supermarket"
      , "mustafa centre", "popular bookstore", "times bookstore", "kinokuniya"
      , "challenger", "courts", "harvey norman", "best denki", "gain city", "audio house"
      , "apple store", "samsung", "electronics", "gadgets", "phone", "laptop"
      , "uniqlo", "h&m", "zara", "cotton on", "charles & keith", "pedro", "love bonito"
      , "clothes", "clothing", "shoes", "bags", "accessories", "fashion"
      , "shopee", "lazada", "amazon", "qoo10", "carousell", "online shopping" ])
  , ("Entertainment",
      [ "cinema", "movie", "golden village", "cathay cineplexes", "shaw theatres"
      , "theater", "theatre", "esplanade", "concert", "show", "performance"
      , "universal studios", "adventure cove", "sea aquarium", "zoo", "bird park"
      , "gardens by the bay", "art museum", "science centre"
      , "arcade", "timezone", "virtual reality", "escape room", "bowling", "karaoke"
      , "ktv", "pool", "billiards", "gym", "fitness", "swimming", "sports"
      , "netflix", "disney plus", "amazon prime", "spotify", "youtube premium"
      , "apple music", "subscription", "digital", "entertainment" ])
  , ("Utilities",
      [ "sp group", "sp services", "electricity", "electric", "power", "utility bill"
      , "pub", "water", "water bill", "conservancy", "town council", "s&cc"
      , "singtel", "starhub", "m1", "circles life", "phone bill", "mobile plan"
      , "internet", "wifi", "broadband", "fibre", "data plan", "roaming"
      , "insurance", "medisave", "cpf", "government", "iras", "tax", "fine"
      , "license", "permit", "registration", "renewal" ])
  , ("Health",
      [ "doctor", "clinic", "polyclinic", "hospital", "specialist", "dentist", "dental"
      , "medical", "health", "checkup", "consultation", "treatment", "medicine"
      , "pharmacy", "guardian", "watsons", "unity pharmacy", "prescription"
      , "tcm", "traditional chinese medicine", "acupuncture", "physiotherapy"
      , "health screening", "vaccination", "covid test", "medical insurance" ])
  , ("Groceries",
      [ "ntuc fairprice", "giant", "cold storage", "sheng siong", "prime supermarket"
      , "marketplace", "finest", "jason deli", "meidi-ya", "don don donki"
      , "grocery", "groceries", "supermarket", "hypermarket", "provisions"
      , "wet market", "market", "pasar", "fresh market", "morning market"
      , "tekka market", "chinatown market", "geylang market"
      , "vegetables", "fruits", "meat", "seafood", "dairy", "bread", "eggs"
      , "rice", "noodles", "canned food", "frozen food", "household items" ])
  , ("Home",
      [ "ikea", "courts", "harvey norman", "gain city", "home improvement"
      , "furniture", "appliances", "electronics", "renovation", "interior design"
      , "rent", "rental", "mortgage", "property", "hdb", "condo", "landed"
      , "utility deposit", "agent fee", "stamp duty", "valuation"
      , "aircon service", "plumber", "electrician", "handyman", "cleaning service"
      , "pest control", "locksmith", "repair", "maintenance", "contractor"
      , "detergent", "toilet paper", "tissue", "soap", "shampoo", "toothpaste"
      , "cleaning supplies", "light bulbs", "batteries", "tools", "hardware" ]) ]

/-- Model of `hay.includes(needle)`: substring occurrence. -/
def strIncludes : List Char → List Char → Bool
  | [], needle => needle.isEmpty
  | c :: t, needle => needle.isPrefixOf (c :: t) || strIncludes t needle

/-- Number of a category's keywords that occur in the lowered transcript:
`keywords.filter(keyword => lowerText.includes(keyword)).length`. -/
def countKw (lowerText : List Char) (kws : List String) : Nat :=
  (kws.filter (fun k => strIncludes lowerText k.toList)).length

/-- Per-category keyword counts, in declaration order. -/
def categoryCounts (lowerText : List Char) : List (String × Nat) :=
  categoryKeywords.map (fun p => (p.1, countKw lowerText p.2))

/-- One step of the source's best-category loop: a category replaces the
current best only with a strictly larger count
(`if (matches > maxMatches)`). -/
def bestStep (acc p : String × Nat) : String × Nat :=
  if p.2 > acc.2 then p else acc

/-- The source's loop over `Object.entries(categoryKeywords)`: starting from
`('Other', 0)`, fold `bestStep` over the per-category counts in declaration
order. -/
def bestCatFold (lowerText : List Char) : String × Nat :=
  (categoryCounts lowerText).foldl bestStep ("Other", 0)

/-- Category of a (lowered) transcript: the fold's best category when its
count is positive, `'Other'` otherwise. -/
def extractCategory (lowerText : List Char) : String :=
  let b := bestCatFold lowerText
  if b.2 > 0 then b.1 else "Other"

/-! ## The extractor -/

/-- The record returned by `parseTransactionFromText`. -/
structure ParsedTxn where
  amount : ℚ
  vendor : String
  category : String
  rawText : String
  parseConfidence : ℚ
deriving DecidableEq

/-- The transaction extractor `parseTransactionFromText` of the route handler:
amount from the currency regex (first match) or the fallback patterns, vendor
from the vendor loop, category from the keyword counts over the lowered
transcript, and a confidence of 0.5 plus 0.3 for a positive amount, 0.2 for a
known vendor and 0.2 for a known category, capped at 1, with the amount
rounded to 2 decimals and the vendor truncated to 30 characters plus an
ellipsis marker. -/
def parseTransactionFromText (text : String) : ParsedTxn :=
  let cs := text.toList
  let lowerText := cs.map jsLower
  let amount := rawAmount cs
  let vendor := rawVendor cs
  let category := extractCategory lowerText
  let confidence : ℚ :=
    1 / 2 + (if amount > 0 then 3 / 10 else 0) +
      (if vendor ≠ "Unknown".toList then 1 / 5 else 0) +
      (if category ≠ "Other" then 1 / 5 else 0)
  { amount := round2 amount
    vendor := String.mk (truncateVendor vendor)
    category := category
    rawText := text
    parseConfidence := min confidence 1 }

/-! ## The `/api/transcribe` endpoint

Control flow of the `POST` handler.  The nondeterministic environment is
passed in as parameters: whether `request.formData()` succeeds, whether an
audio file is present, whether a Deepgram key is configured, which demo
transcript `Math.random` picks, and what the Deepgram call produces. -/

/-- Outcome of the Deepgram call inside the inner `try`:
an exception, a result carrying `error`, or a result whose transcript field is
`t` (`none` models a missing/undefined transcript; the source treats the empty
string as missing too, because `if (!transcript)` is a truthiness test). -/
inductive BackendResult where
  | throwEx
  | errResult
  | okTranscript (t : Option String)
deriving DecidableEq

/-- The JSON body (plus HTTP status) the handler responds with, restricted to
the fields the spec talks about. -/
structure ApiResponse where
  status : Nat
  errorMsg : Option String
  transcript : Option String
  parsed : Option ParsedTxn
  confidence : ℚ
  demoMode : Bool
deriving DecidableEq

/-- The fallback transcript of the inner `catch` (real transcription failed). -/
def fallbackTranscript : String := "Demo: I spent ten dollars on food"

/-- The fallback transcript of the outer `catch` (any other exception). -/
def errorTranscript : String := "Demo: Unable to process audio"

/-- The `POST` handler of `/api/transcribe`.  `formDataOk` is whether the
request body parses (its failure is caught by the outer `catch`),
`audioProvided` whether `formData.get('audio')` is non-null, `hasApiKey` the
`DEEPGRAM_API_KEY` check, `demoPick` the randomly selected demo transcript,
`backend` the Deepgram outcome and `backendConf` the reported confidence
(`... || 0`). -/
def postTranscribe (formDataOk audioProvided hasApiKey : Bool)
    (demoPick : String) (backend : BackendResult) (backendConf : ℚ) :
    ApiResponse :=
  if !formDataOk then
    { status := 200, errorMsg := none, transcript := some errorTranscript
      parsed := some (parseTransactionFromText errorTranscript)
      confidence := 3 / 10, demoMode := true }
  else if !audioProvided then
    { status := 400, errorMsg := some "No audio file provided"
      transcript := none, parsed := none, confidence := 0, demoMode := false }
  else if !hasApiKey then
    { status := 200, errorMsg := none, transcript := some demoPick
      parsed := some (parseTransactionFromText demoPick)
      confidence := 17 / 20, demoMode := true }
  else
    match backend with
    | .okTranscript (some t) =>
      if t = "" then
        { status := 200, errorMsg := none, transcript := some fallbackTranscript
          parsed := some (parseTransactionFromText fallbackTranscript)
          confidence := 1 / 2, demoMode := true }
      else
        { status := 200, errorMsg := none, transcript := some t
          parsed := some (parseTransactionFromText t)
          confidence := backendConf, demoMode := false }
    | _ =>
      { status := 200, errorMsg := none, transcript := some fallbackTranscript
        parsed := some (parseTransactionFromText fallbackTranscript)
        confidence := 1 / 2, demoMode := true }

/-! ## The transaction store -/

/-- A stored transaction (`Transaction` in the store module). -/
structure Transaction where
  id : String
  amount : ℚ
  vendor : String
  category : String
  timestamp : String
  rawText : String
  confidence : Option ℚ
deriving DecidableEq

/-- A `Partial<Transaction>`: every field optional. -/
structure TransactionUpdate where
  id : Option String := none
  amount : Option ℚ := none
  vendor : Option String := none
  category : Option String := none
  timestamp : Option String := none
  rawText : Option String := none
  confidence : Option (Option ℚ) := none
deriving DecidableEq

/-- The object spread `{ ...t, ...updates }`: every field present in
`updates` replaces the one of `t`. -/
def applyUpdate (t : Transaction) (u : TransactionUpdate) : Transaction :=
  { id := u.id.getD t.id
    amount := u.amount.getD t.amount
    vendor := u.vendor.getD t.vendor
    category := u.category.getD t.category
    timestamp := u.timestamp.getD t.timestamp
    rawText := u.rawText.getD t.rawText
    confidence := u.confidence.getD t.confidence }

/-- The store's `updateTransaction`:
`transactions.map(t => t.id === id ? { ...t, ...updates } : t)`. -/
def updateTransaction (id : String) (u : TransactionUpdate)
    (l : List Transaction) : List Transaction :=
  l.map (fun t => if t.id = id then applyUpdate t u else t)

/-- The store's `removeTransaction`:
`transactions.filter(t => t.id !== id)`. -/
def removeTransaction (id : String) (l : List Transaction) :
    List Transaction :=
  l.filter (fun t => t.id ≠ id)

/-! ## The recording state machine

The `VoiceRecorder` component, modelled as an event system.  A `Sys`
configuration holds the React state and the refs the handlers touch; the
four events are the user calling `stopRecording`, a pending failsafe timeout
firing, the `MediaRecorder.onstop` callback firing (its synchronous part, up
to the `await fetch`), and the transcription request settling (the rest of
the `onstop` callback).  Events carry the clock value at which they occur;
`enabled` states when an event can occur: time is monotone, a timeout fires
exactly at its deadline and only while pending, `onstop` fires only after
`recorder.stop()` was called, and the fetch settles only once issued. -/

/-- The React `state` of the component. -/
inductive RecState where
  | idle
  | recording
  | processing
  | completed
  | error
deriving DecidableEq

/-- A configuration of the component. -/
structure Sys where
  ui : RecState
  audioLevel : Nat
  durationRunning : Bool
  acOpen : Bool
  streamActive : Bool
  hasRecorder : Bool
  recRecording : Bool
  onstopPending : Bool
  fetchPending : Bool
  timers : List (Nat × Nat)
  storedTimeout : Option Nat
  nextId : Nat
  time : Nat
deriving DecidableEq

/-- The events. -/
inductive Ev where
  | stopCall
  | timerFire (i : Nat)
  | onstopFire
  | fetchResolve (ok : Bool)
deriving DecidableEq

/-- The `stopRecording` handler: set state to `processing` unconditionally,
stop the duration timer and the level sampling, reset the level, close the
audio context, stop the recorder if it is recording (which makes `onstop`
pending), stop the stream, create a fresh 5-second failsafe timeout, and
store its id on the recorder ref when one exists.  Nothing clears a
previously created timeout. -/
def stopRecording (τ : Nat) (s : Sys) : Sys :=
  let s1 := { s with
    ui := RecState.processing
    durationRunning := false
    audioLevel := 0
    acOpen := false
    time := τ }
  let s2 := if s1.hasRecorder && s1.recRecording then
      { s1 with recRecording := false, onstopPending := true }
    else s1
  let s3 := { s2 with streamActive := false }
  { s3 with
    timers := s3.timers ++ [(s3.nextId, τ + 5)]
    storedTimeout := if s3.hasRecorder then some s3.nextId else s3.storedTimeout
    nextId := s3.nextId + 1 }

/-- The failsafe timeout callback: the timer is spent, and the functional
`setState` moves the session to `error` only when it is still `processing`. -/
def fireFailsafe (τ i : Nat) (s : Sys) : Sys :=
  let s1 := { s with timers := s.timers.filter (fun p => p.1 ≠ i), time := τ }
  if s1.ui = RecState.processing then { s1 with ui := RecState.error } else s1

/-- The synchronous part of `mediaRecorder.onstop`: clear the stored failsafe
timeout (a no-op when it already fired) and issue the transcription fetch. -/
def onstopHandler (τ : Nat) (s : Sys) : Sys :=
  let s1 := { s with onstopPending := false, time := τ }
  let s2 := match s1.storedTimeout with
    | some i => { s1 with timers := s1.timers.filter (fun p => p.1 ≠ i) }
    | none => s1
  { s2 with fetchPending := true }

/-- The continuation of `onstop` after `await fetch`: on success the state
becomes `completed` unconditionally, on failure `error`. -/
def fetchSettle (τ : Nat) (ok : Bool) (s : Sys) : Sys :=
  { s with
    fetchPending := false
    ui := if ok then RecState.completed else RecState.error
    time := τ }

/-- One step of the event system. -/
def stepEv (s : Sys) : Nat × Ev → Sys
  | (τ, .stopCall) => stopRecording τ s
  | (τ, .timerFire i) => fireFailsafe τ i s
  | (τ, .onstopFire) => onstopHandler τ s
  | (τ, .fetchResolve ok) => fetchSettle τ ok s

/-- When an event can occur in a configuration. -/
def enabledEv (s : Sys) : Nat × Ev → Bool
  | (τ, .stopCall) => s.time ≤ τ
  | (τ, .timerFire i) =>
    s.time ≤ τ && s.timers.any (fun p => p.1 = i && p.2 = τ)
  | (τ, .onstopFire) => s.time ≤ τ && s.onstopPending
  | (τ, .fetchResolve _) => s.time ≤ τ && s.fetchPending

/-- Run a trace of timed events. -/
def execT (s : Sys) (es : List (Nat × Ev)) : Sys := es.foldl stepEv s

/-- A trace is valid when every event is enabled where it occurs. -/
def validT : Sys → List (Nat × Ev) → Bool
  | _, [] => true
  | s, e :: es => enabledEv s e && validT (stepEv s e) es

/-- The configuration right after a successful `startRecording`: recording,
device and refs set up, no pending timer or callback. -/
def postStart : Sys :=
  { ui := RecState.recording
    audioLevel := 0
    durationRunning := true
    acOpen := true
    streamActive := true
    hasRecorder := true
    recRecording := true
    onstopPending := false
    fetchPending := false
    timers := []
    storedTimeout := none
    nextId := 0
    time := 0 }

/-- The initial configuration: idle, nothing set up. -/
def idleInit : Sys :=
  { ui := RecState.idle
    audioLevel := 0
    durationRunning := false
    acOpen := false
    streamActive := false
    hasRecorder := false
    recRecording := false
    onstopPending := false
    fetchPending := false
    timers := []
    storedTimeout := none
    nextId := 0
    time := 0 }

/-! ## Definitions used by the claims (spec-side characterisations) -/

/-- The numeric value of a currency-amount token, read positionally (the
spec's reading): the digits before the optional point as an integer, plus a
single decimal digit counted in tenths, or two decimal digits counted in
tenths and hundredths. -/
def tokenNumericValue (g : List Char) : ℚ :=
  let ds := g.takeWhile Char.isDigit
  let fs := (g.dropWhile Char.isDigit).drop 1
  (digitsToNat ds : ℚ) +
    (match fs with
     | [] => 0
     | [c] => ((c.toNat - 48 : ℕ) : ℚ) / 10
     | c :: d :: _ =>
       ((c.toNat - 48 : ℕ) : ℚ) / 10 + ((d.toNat - 48 : ℕ) : ℚ) / 100)

/-- The well-formed shapes a captured currency token can take: a nonempty
digit string, optionally followed by a point and one or two digits. -/
def tokenShape (g : List Char) : Prop :=
  (g ≠ [] ∧ ∀ c ∈ g, c.isDigit = true) ∨
  (∃ ds fs, g = ds ++ '.' :: fs ∧ ds ≠ [] ∧ (∀ c ∈ ds, c.isDigit = true) ∧
    fs ≠ [] ∧ fs.length ≤ 2 ∧ ∀ c ∈ fs, c.isDigit = true)

/-- Maximum of the counts in a list, folded from a seed. -/
def maxCount (l : List (String × Nat)) (m : Nat) : Nat :=
  l.foldl (fun acc p => max acc p.2) m

/-- The spec's description of category classification: lower-case the
transcript, count per category how many of its keywords occur as substrings,
pick the category with the strictly highest count with ties going to the
first-declared category in declaration order, and return `'Other'` when the
highest count is zero. -/
def specCategory (t : String) : String :=
  let counts := categoryCounts (t.toList.map jsLower)
  let m := maxCount counts 0
  if m = 0 then "Other"
  else ((counts.find? (fun p => p.2 = m)).map Prod.fst).getD "Other"

/-- The nonempty group-1 captures of the vendor patterns on `cs`, in pattern
order. -/
def matchedVendors (cs : List Char) : List (List Char) :=
  vendorPatterns.filterMap (fun p => vendorMatchOf p cs)

/-- What the vendor loop actually returns: the first cleaned capture of
length greater than 2 when one exists; otherwise the cleaned capture of the
last matching pattern; `'Unknown'` only when no pattern matches at all. -/
def specVendor (cs : List Char) : List Char :=
  match ((matchedVendors cs).map cleanVendor).find?
      (fun w => w.length > 2) with
  | some w => w
  | none => ((matchedVendors cs).map cleanVendor).getLast?.getD "Unknown".toList

/-! ## Arithmetic helper lemmas -/

lemma floor_one_half : ⌊(1 / 2 : ℚ)⌋ = 0 := by
  rw [Int.floor_eq_iff]
  norm_num

lemma jsRound_nat (n : ℕ) : jsRound (n : ℚ) = n := by
  unfold jsRound
  rw [Int.floor_nat_add, floor_one_half]
  simp

/-- Rounding to two decimals is the identity on exact multiples of 1/100. -/
lemma round2_natDiv100 (n : ℕ) : round2 ((n : ℚ) / 100) = (n : ℚ) / 100 := by
  unfold round2
  rw [div_mul_cancel₀ _ (by norm_num : (100 : ℚ) ≠ 0), jsRound_nat]
  push_cast
  ring

lemma round2_zero : round2 0 = 0 := by
  have h := round2_natDiv100 0
  simpa using h

/-! ## Claim C7: the empty transcript -/

/-- C7: the extractor applied to the empty transcript returns exactly
amount 0, vendor `"Unknown"`, category `"Other"`, and confidence 0.5 (the
`rawText` field carries the empty transcript back). -/
theorem extractor_empty_transcript :
    parseTransactionFromText "" =
      { amount := 0, vendor := "Unknown", category := "Other", rawText := ""
        parseConfidence := 1 / 2 } := by
  have h1 : firstCurrencyToken ([] : List Char) = none := by decide
  have h2 : amountPatterns.findSome? (fun p => reSearch p ([] : List Char)) =
      none := by decide
  have hA : rawAmount ([] : List Char) = 0 := by
    simp only [rawAmount, amountFallback, h1, h2]
  have hV : rawVendor ([] : List Char) = "Unknown".toList := by decide
  have hT : truncateVendor (rawVendor ([] : List Char)) = "Unknown".toList := by
    decide
  have hC : extractCategory ([] : List Char) = "Other" := by decide
  have hS : String.mk "Unknown".toList = "Unknown" := rfl
  simp [parseTransactionFromText, hA, hV, hT, hC, round2_zero,
    ParsedTxn.mk.injEq, hS]
  exact ⟨by decide, by norm_num⟩

/-! ## Claim C1: the failsafe timeout -/

/-- C1 (amended): after `stop()` at time `t0` with no finalization, the single
failsafe timer created by that `stop()` is enabled exactly at `t0 + 5` and
moves the session from Processing to Failed; the failsafe callback never
changes the state of a session that is not in Processing (so it cannot fire
twice into Failed, and cannot touch a Completed session); and the pending
failsafe timer is removed as soon as the finalization callback fires. -/
theorem failsafe_amended :
    (∀ t0 : Nat,
      validT postStart [(t0, Ev.stopCall), (t0 + 5, Ev.timerFire 0)] = true ∧
      (execT postStart [(t0, Ev.stopCall), (t0 + 5, Ev.timerFire 0)]).ui =
        RecState.error) ∧
    (∀ (s : Sys) (τ i : Nat), s.ui ≠ RecState.processing →
      (fireFailsafe τ i s).ui = s.ui) ∧
    (∀ (s : Sys) (τ i : Nat), s.storedTimeout = some i →
      ((onstopHandler τ s).timers.all (fun p => p.1 ≠ i)) = true) := by
  refine ⟨fun t0 => ⟨?_, ?_⟩, fun s τ i h => ?_, fun s τ i h => ?_⟩
  · simp [validT, enabledEv, stepEv, stopRecording, postStart, fireFailsafe]
  · simp [execT, stepEv, stopRecording, postStart, fireFailsafe]
  · simp [fireFailsafe, h]
  · simp only [onstopHandler, h]
    simp [List.all_eq_true, List.mem_filter]

/-- Counterexample to C1 as stated: in the valid trace that stops at time 0,
times out at time 5 (entering Failed), and then sees the `onstop`
finalization callback at time 6 followed by a successful transcription at
time 7, the session leaves Failed and ends Completed — a late finalization
callback resurrects a Failed session.  Moreover in the valid trace that stops
at time 0 and finalizes at time 1, the session is still in Processing with no
failsafe timer pending, so nothing bounds its stay in Processing by 5
seconds. -/
theorem failsafe_cex :
    validT postStart
        [(0, Ev.stopCall), (5, Ev.timerFire 0), (6, Ev.onstopFire),
          (7, Ev.fetchResolve true)] = true ∧
    (execT postStart [(0, Ev.stopCall), (5, Ev.timerFire 0)]).ui =
      RecState.error ∧
    (execT postStart
        [(0, Ev.stopCall), (5, Ev.timerFire 0), (6, Ev.onstopFire),
          (7, Ev.fetchResolve true)]).ui = RecState.completed ∧
    validT postStart [(0, Ev.stopCall), (1, Ev.onstopFire)] = true ∧
    (execT postStart [(0, Ev.stopCall), (1, Ev.onstopFire)]).ui =
      RecState.processing ∧
    (execT postStart [(0, Ev.stopCall), (1, Ev.onstopFire)]).timers = [] := by
  decide

/-- Witness for `failsafe_amended` at concrete inputs. -/
theorem failsafe_amended_witness :
    (validT postStart [(3, Ev.stopCall), (3 + 5, Ev.timerFire 0)] = true ∧
      (execT postStart [(3, Ev.stopCall), (3 + 5, Ev.timerFire 0)]).ui =
        RecState.error) ∧
    (fireFailsafe 9 1 postStart).ui = postStart.ui ∧
    ((onstopHandler 1 (stopRecording 0 postStart)).timers.all
      (fun p => p.1 ≠ 0)) = true :=
  ⟨failsafe_amended.1 3,
    failsafe_amended.2.1 postStart 9 1 (by decide),
    failsafe_amended.2.2 (stopRecording 0 postStart) 1 0 (by decide)⟩

/-! ## Claim C2: `stop()` outside Recording -/

/-- C2 (amended): `stop()` always sets the state to Processing — a no-op on
the state value when already Processing, but a real transition when Idle —
and every `stop()` call appends a fresh live failsafe timer without clearing
any previous one, so repeated calls accumulate pending timers; the timeout
transition itself cannot double-fire, since a failsafe callback leaves a
session that is already Failed unchanged. -/
theorem stop_idempotence_amended :
    (∀ (s : Sys) (τ : Nat), s.ui = RecState.processing →
      (stopRecording τ s).ui = RecState.processing) ∧
    (∀ (s : Sys) (τ : Nat), s.ui = RecState.idle →
      (stopRecording τ s).ui = RecState.processing) ∧
    (∀ (s : Sys) (τ : Nat),
      (stopRecording τ s).timers.length = s.timers.length + 1) ∧
    (∀ (s : Sys) (τ i : Nat), s.ui = RecState.error →
      (fireFailsafe τ i s).ui = RecState.error) := by
  refine ⟨fun s τ _ => ?_, fun s τ _ => ?_, fun s τ => ?_, fun s τ i h => ?_⟩
  · simp only [stopRecording]
    split <;> rfl
  · simp only [stopRecording]
    split <;> rfl
  · by_cases hrec : s.hasRecorder && s.recRecording <;> simp [stopRecording, hrec]
  · simp [fireFailsafe, h]

/-- Counterexample to C2 as stated: calling `stopRecording` in the Idle
configuration changes the state component from Idle to Processing (not a
no-op), and two consecutive `stop()` calls leave two live failsafe timers at
once (the second call is made while already in Processing and is itself
enabled in the event system). -/
theorem stop_idempotence_cex :
    idleInit.ui = RecState.idle ∧
    (stopRecording 0 idleInit).ui = RecState.processing ∧
    RecState.processing ≠ RecState.idle ∧
    (stopRecording 1 (stopRecording 0 idleInit)).timers.length = 2 ∧
    (stopRecording 0 postStart).ui = RecState.processing ∧
    validT (stopRecording 0 postStart) [(1, Ev.stopCall)] = true ∧
    (stopRecording 1 (stopRecording 0 postStart)).timers =
      [(0, 5), (1, 6)] := by
  decide

/-- Witness for `stop_idempotence_amended` at concrete inputs. -/
theorem stop_idempotence_witness :
    (stopRecording 1 (stopRecording 0 postStart)).ui = RecState.processing ∧
    (stopRecording 0 idleInit).ui = RecState.processing ∧
    (stopRecording 0 postStart).timers.length = postStart.timers.length + 1 ∧
    (fireFailsafe 9 1 (fireFailsafe 5 0 (stopRecording 0 postStart))).ui =
      RecState.error :=
  ⟨stop_idempotence_amended.1 (stopRecording 0 postStart) 1 (by decide),
    stop_idempotence_amended.2.1 idleInit 0 (by decide),
    stop_idempotence_amended.2.2.1 postStart 0,
    stop_idempotence_amended.2.2.2 (fireFailsafe 5 0 (stopRecording 0 postStart))
      9 1 (by decide)⟩


/-! ## Claim C10: store frame properties -/

/-- C10: `updateTransaction` preserves the length and order of the list and
leaves every position whose transaction id differs from the target id
unchanged (so at most the positions that carry the target id change); and
when no stored transaction has the target id, both `updateTransaction` and
`removeTransaction` return the list unchanged. -/
theorem updateTransaction_frame (l : List Transaction) (id : String)
    (u : TransactionUpdate) :
    (updateTransaction id u l).length = l.length ∧
    (∀ (i : Nat) (t : Transaction), l.get? i = some t → t.id ≠ id →
      (updateTransaction id u l).get? i = some t) ∧
    ((∀ t ∈ l, t.id ≠ id) →
      updateTransaction id u l = l ∧ removeTransaction id l = l) := by
  refine ⟨?_, fun i t ht hne => ?_, fun hall => ⟨?_, ?_⟩⟩
  · simp [updateTransaction]
  · rw [List.get?_eq_getElem?] at ht ⊢
    simp [updateTransaction, List.getElem?_map, ht, hne]
  · have : ∀ t ∈ l, (if t.id = id then applyUpdate t u else t) = t := by
      intro t ht
      simp [hall t ht]
    simp only [updateTransaction]
    rw [List.map_congr_left this]
    simp
  · rw [removeTransaction, List.filter_eq_self]
    intro t ht
    simpa using hall t ht

/-- Witness for `updateTransaction_frame` at a concrete store. -/
theorem updateTransaction_frame_witness :
    updateTransaction "zzz" { vendor := some "Other vendor" }
        [ { id := "a1", amount := 5, vendor := "Maxwell", category := "Food"
          , timestamp := "t1", rawText := "r1", confidence := none } ] =
      [ { id := "a1", amount := 5, vendor := "Maxwell", category := "Food"
        , timestamp := "t1", rawText := "r1", confidence := none } ] ∧
    removeTransaction "zzz"
        [ { id := "a1", amount := 5, vendor := "Maxwell", category := "Food"
          , timestamp := "t1", rawText := "r1", confidence := none } ] =
      [ { id := "a1", amount := 5, vendor := "Maxwell", category := "Food"
        , timestamp := "t1", rawText := "r1", confidence := none } ] :=
  (updateTransaction_frame
    [ { id := "a1", amount := 5, vendor := "Maxwell", category := "Food"
      , timestamp := "t1", rawText := "r1", confidence := none } ]
    "zzz" { vendor := some "Other vendor" }).2.2
    (by
      intro t ht
      simp only [List.mem_singleton] at ht
      subst ht
      decide)

/-! ## Claim C8: the endpoint degrades gracefully -/

/-- C8: whenever the transcription backend fails — the Deepgram call throws,
returns an error, or yields no transcript (missing or empty) — the handler
returns a 200 response carrying the locally generated fallback transcript and
its parsed transaction instead of an error; and the outer exceptional path
(the request body failing to parse) likewise ends in a 200 fallback
response. -/
theorem transcribe_fallback (demoPick : String) (conf : ℚ)
    (backend : BackendResult)
    (hb : backend = BackendResult.throwEx ∨ backend = BackendResult.errResult ∨
      backend = BackendResult.okTranscript none ∨
      backend = BackendResult.okTranscript (some "")) :
    postTranscribe true true true demoPick backend conf =
      { status := 200, errorMsg := none, transcript := some fallbackTranscript
        parsed := some (parseTransactionFromText fallbackTranscript)
        confidence := 1 / 2, demoMode := true } ∧
    (∀ (a k : Bool) (d : String) (b : BackendResult) (c : ℚ),
      postTranscribe false a k d b c =
        { status := 200, errorMsg := none, transcript := some errorTranscript
          parsed := some (parseTransactionFromText errorTranscript)
          confidence := 3 / 10, demoMode := true }) := by
  constructor
  · rcases hb with h | h | h | h <;> subst h <;> rfl
  · intro a k d b c
    rfl

/-- Witness for `transcribe_fallback` at concrete inputs. -/
theorem transcribe_fallback_witness :
    postTranscribe true true true "x" BackendResult.errResult 0 =
      { status := 200, errorMsg := none, transcript := some fallbackTranscript
        parsed := some (parseTransactionFromText fallbackTranscript)
        confidence := 1 / 2, demoMode := true } ∧
    postTranscribe false true true "x" BackendResult.errResult 0 =
      { status := 200, errorMsg := none, transcript := some errorTranscript
        parsed := some (parseTransactionFromText errorTranscript)
        confidence := 3 / 10, demoMode := true } :=
  ⟨(transcribe_fallback "x" 0 BackendResult.errResult (Or.inr (Or.inl rfl))).1,
    (transcribe_fallback "x" 0 BackendResult.errResult
      (Or.inr (Or.inl rfl))).2 true true "x" BackendResult.errResult 0⟩

/-! ## Claim C9: digit-free transcripts have amount 0 -/

lemma takeWhile_digit_eq_nil (cs : List Char)
    (h : ∀ c ∈ cs, c.isDigit = false) : cs.takeWhile Char.isDigit = [] := by
  cases cs with
  | nil => rfl
  | cons c r => simp [List.takeWhile_cons, h c (List.mem_cons_self c r)]

lemma currencyTokenAt_none (cs : List Char)
    (h : ∀ c ∈ cs, c.isDigit = false) : currencyTokenAt cs = none := by
  have hsub : ∀ c ∈ (if cs.head? = some '$' then cs.tail else cs),
      c.isDigit = false := by
    split
    · intro c hc
      cases cs with
      | nil => simp at hc
      | cons a r => exact h c (List.mem_cons_of_mem a hc)
    · exact h
  simp only [currencyTokenAt]
  rw [takeWhile_digit_eq_nil _ hsub]
  rfl

lemma firstCurrencyToken_none : ∀ (cs : List Char),
    (∀ c ∈ cs, c.isDigit = false) → firstCurrencyToken cs = none
  | [], _ => rfl
  | c :: t, h => by
    rw [firstCurrencyToken, currencyTokenAt_none _ h,
      firstCurrencyToken_none t (fun d hd => h d (List.mem_cons_of_mem c hd))]

/-- A pattern that starts with the capture group `(\d+)` cannot match at a
position whose first character is not a digit. -/
lemma mrun_digit_head_none (r : RE) (st : MState)
    (k : MState → Option MState)
    (h : st.rest.takeWhile Char.isDigit = []) :
    mrun (RE.seq (RE.grpA (RE.plusG CC.digit)) r) st k = none := by
  simp [mrun, charRun, ccSem, h, countsDesc, firstSome]

/-- A pattern that starts with `(\d+)` matches nowhere in a digit-free
string. -/
lemma reSearch_digit_none (r : RE) : ∀ (cs : List Char),
    (∀ c ∈ cs, c.isDigit = false) →
    reSearch (RE.seq (RE.grpA (RE.plusG CC.digit)) r) cs = none
  | [], h => by
    rw [reSearch, mrun_digit_head_none r _ _ (by rfl)]
  | c :: t, h => by
    rw [reSearch, mrun_digit_head_none r _ _ (takeWhile_digit_eq_nil _ h)]
    exact reSearch_digit_none r t (fun d hd => h d (List.mem_cons_of_mem c hd))

/-- C9: every amount pattern of the extractor requires digit characters, so a
transcript that contains no ASCII digit — in particular one whose amount is
only spelled out in words, like the locally generated demo transcripts —
parses to amount 0. -/
theorem spelled_out_amount_zero (t : String)
    (h : ∀ c ∈ t.toList, c.isDigit = false) :
    (parseTransactionFromText t).amount = 0 := by
  have h1 : firstCurrencyToken t.toList = none := firstCurrencyToken_none _ h
  have e : ∀ r : RE,
      reSearch (RE.seq (RE.grpA (RE.plusG CC.digit)) r) t.toList = none :=
    fun r => reSearch_digit_none r t.toList h
  have h3 : amountPatterns.findSome? (fun p => reSearch p t.toList) = none := by
    simp only [amountPatterns, List.findSome?_cons, e, List.findSome?_nil]
  have hA : rawAmount t.toList = 0 := by
    simp only [rawAmount, amountFallback, h1, h3]
  show round2 (rawAmount t.toList) = 0
  rw [hA, round2_zero]

/-- Witness for `spelled_out_amount_zero`: the first demo transcript of the
endpoint contains no digit, and its extracted amount is 0. -/
theorem spelled_out_amount_zero_witness :
    (∀ c ∈ ("I spent twelve dollars on chicken rice at Maxwell Food Centre" :
        String).toList, c.isDigit = false) ∧
    (parseTransactionFromText
        "I spent twelve dollars on chicken rice at Maxwell Food Centre").amount
      = 0 :=
  ⟨by decide,
    spelled_out_amount_zero
      "I spent twelve dollars on chicken rice at Maxwell Food Centre"
      (by decide)⟩

/-! ## Claim C3: the first currency token -/

lemma takeWhile_all {p : Char → Bool} : ∀ {l : List Char},
    (∀ c ∈ l, p c = true) → l.takeWhile p = l
  | [], _ => rfl
  | c :: t, h => by
    simp [List.takeWhile_cons, h c (List.mem_cons_self c t),
      takeWhile_all (fun d hd => h d (List.mem_cons_of_mem c hd))]

lemma dropWhile_all {p : Char → Bool} : ∀ {l : List Char},
    (∀ c ∈ l, p c = true) → l.dropWhile p = []
  | [], _ => rfl
  | c :: t, h => by
    simp [List.dropWhile_cons, h c (List.mem_cons_self c t),
      dropWhile_all (fun d hd => h d (List.mem_cons_of_mem c hd))]

lemma takeWhile_append_stop {p : Char → Bool} {x : Char} {l2 : List Char}
    (hx : p x = false) : ∀ {l1 : List Char}, (∀ c ∈ l1, p c = true) →
    (l1 ++ x :: l2).takeWhile p = l1
  | [], _ => by simp [List.takeWhile_cons, hx]
  | c :: t, h => by
    simp [List.takeWhile_cons, h c (List.mem_cons_self c t),
      takeWhile_append_stop hx (fun d hd => h d (List.mem_cons_of_mem c hd))]

lemma dropWhile_append_stop {p : Char → Bool} {x : Char} {l2 : List Char}
    (hx : p x = false) : ∀ {l1 : List Char}, (∀ c ∈ l1, p c = true) →
    (l1 ++ x :: l2).dropWhile p = x :: l2
  | [], _ => by simp [List.dropWhile_cons, hx]
  | c :: t, h => by
    simp [List.dropWhile_cons, h c (List.mem_cons_self c t),
      dropWhile_append_stop hx (fun d hd => h d (List.mem_cons_of_mem c hd))]

lemma mem_takeWhile {p : Char → Bool} : ∀ {l : List Char} {c : Char},
    c ∈ l.takeWhile p → p c = true
  | [], _, h => by simp at h
  | a :: t, c, h => by
    rw [List.takeWhile_cons] at h
    by_cases ha : p a = true
    · simp [ha] at h
      rcases h with h | h
      · rwa [h]
      · exact mem_takeWhile h
    · simp [Bool.of_not_eq_true ha] at h

lemma currencyTokenAt_shape {cs g : List Char}
    (h : currencyTokenAt cs = some g) : tokenShape g := by
  simp only [currencyTokenAt] at h
  set body := if cs.head? = some '$' then cs.tail else cs with hb
  by_cases hd : (body.takeWhile Char.isDigit).isEmpty
  · simp [hd] at h
  · simp only [hd, Bool.false_eq_true, if_false] at h
    have hds : ∀ c ∈ body.takeWhile Char.isDigit, c.isDigit = true :=
      fun c hc => mem_takeWhile hc
    have hdsne : body.takeWhile Char.isDigit ≠ [] := by
      intro he
      rw [he] at hd
      simp at hd
    split at h
    · rename_i r2 heq
      by_cases hf : ((r2.takeWhile Char.isDigit).take 2).isEmpty
      · simp only [hf, if_true, Option.some.injEq] at h
        exact Or.inl ⟨h ▸ hdsne, h ▸ hds⟩
      · simp only [hf, Bool.false_eq_true, if_false, Option.some.injEq] at h
        refine Or.inr ⟨body.takeWhile Char.isDigit,
          (r2.takeWhile Char.isDigit).take 2, h.symm, hdsne, hds, ?_, ?_, ?_⟩
        · intro he
          rw [he] at hf
          simp at hf
        · simp
        · intro c hc
          exact mem_takeWhile (List.mem_of_mem_take hc)
    · simp only [Option.some.injEq] at h
      exact Or.inl ⟨h ▸ hdsne, h ▸ hds⟩

lemma firstCurrencyToken_shape : ∀ {cs g : List Char},
    firstCurrencyToken cs = some g → tokenShape g
  | [], g, h => by simp [firstCurrencyToken] at h
  | c :: t, g, h => by
    rw [firstCurrencyToken] at h
    rcases hm : currencyTokenAt (c :: t) with _ | g2
    · rw [hm] at h
      exact firstCurrencyToken_shape h
    · rw [hm] at h
      simp only [Option.some.injEq] at h
      exact h ▸ currencyTokenAt_shape hm

lemma digitsToNat_single (c : Char) : digitsToNat [c] = c.toNat - 48 := by
  simp [digitsToNat]

lemma digitsToNat_pair (c d : Char) :
    digitsToNat [c, d] = (c.toNat - 48) * 10 + (d.toNat - 48) := by
  simp [digitsToNat]

lemma parseFloatQ_eq_tokenValue {g : List Char} (h : tokenShape g) :
    parseFloatQ g = tokenNumericValue g ∧
    ∃ n : ℕ, parseFloatQ g = (n : ℚ) / 100 := by
  rcases h with ⟨hne, hdig⟩ | ⟨ds, fs, hg, hdsne, hds, hfsne, hfslen, hfs⟩
  · constructor
    · rw [parseFloatQ, tokenNumericValue, takeWhile_all hdig,
        dropWhile_all hdig]
      rfl
    · refine ⟨digitsToNat g * 100, ?_⟩
      rw [parseFloatQ, takeWhile_all hdig, dropWhile_all hdig]
      show (digitsToNat g : ℚ) + 0 = ((digitsToNat g * 100 : ℕ) : ℚ) / 100
      push_cast
      field_simp
  · subst hg
    have hdot : ('.' : Char).isDigit = false := rfl
    have e1 : (ds ++ '.' :: fs).takeWhile Char.isDigit = ds :=
      takeWhile_append_stop hdot hds
    have e2 : (ds ++ '.' :: fs).dropWhile Char.isDigit = '.' :: fs :=
      dropWhile_append_stop hdot hds
    have e3 : fs.takeWhile Char.isDigit = fs := takeWhile_all hfs
    rcases fs with _ | ⟨c, fs2⟩
    · exact absurd rfl hfsne
    · rcases fs2 with _ | ⟨d, fs3⟩
      · constructor
        · simp only [parseFloatQ, tokenNumericValue, e1, e2, e3,
            List.drop_succ_cons, List.drop_zero, digitsToNat_single,
            List.length_cons, List.length_nil]
          norm_num
        · refine ⟨digitsToNat ds * 100 + (c.toNat - 48) * 10, ?_⟩
          simp only [parseFloatQ, e1, e2, e3, digitsToNat_single,
            List.length_cons, List.length_nil]
          generalize digitsToNat ds = a
          generalize c.toNat - 48 = m
          push_cast
          field_simp
          ring
      · rcases fs3 with _ | ⟨e, fs4⟩
        · constructor
          · simp only [parseFloatQ, tokenNumericValue, e1, e2, e3,
              List.drop_succ_cons, List.drop_zero, digitsToNat_pair,
              List.length_cons, List.length_nil]
            generalize c.toNat - 48 = m
            generalize d.toNat - 48 = k
            push_cast
            field_simp
            ring
          · refine ⟨digitsToNat ds * 100 + ((c.toNat - 48) * 10 +
              (d.toNat - 48)), ?_⟩
            simp only [parseFloatQ, e1, e2, e3, digitsToNat_pair,
              List.length_cons, List.length_nil]
            generalize digitsToNat ds = a
            generalize c.toNat - 48 = m
            generalize d.toNat - 48 = k
            push_cast
            field_simp
            ring
        · exfalso
          simp at hfslen

/-- C3: when the transcript contains a currency-amount token, the extracted
amount is the numeric value of the first such token in reading order rounded
to 2 decimal places (and, that value having at most two decimals, the
rounding changes nothing); later currency tokens play no role and are never
summed. -/
theorem first_currency_token_amount (t : String) (g : List Char)
    (h : firstCurrencyToken t.toList = some g) :
    (parseTransactionFromText t).amount = round2 (tokenNumericValue g) ∧
    (parseTransactionFromText t).amount = tokenNumericValue g := by
  have hs := firstCurrencyToken_shape h
  obtain ⟨hv, n, hn⟩ := parseFloatQ_eq_tokenValue hs
  have hAmt : (parseTransactionFromText t).amount = round2 (parseFloatQ g) := by
    show round2 (rawAmount t.toList) = round2 (parseFloatQ g)
    rw [rawAmount, h]
  have hround : round2 (parseFloatQ g) = parseFloatQ g := by
    rw [hn, round2_natDiv100]
  refine ⟨?_, ?_⟩
  · rw [hAmt, ← hv]
  · rw [hAmt, hround, hv]

/-- Witness for `first_currency_token_amount`: in
`"I spent $12.50 on coffee at Starbucks"` the first currency token is
`12.50`. -/
theorem first_currency_token_amount_witness :
    firstCurrencyToken "I spent $12.50 on coffee at Starbucks".toList =
      some ['1', '2', '.', '5', '0'] ∧
    (parseTransactionFromText "I spent $12.50 on coffee at Starbucks").amount =
      tokenNumericValue ['1', '2', '.', '5', '0'] :=
  ⟨by decide,
    (first_currency_token_amount "I spent $12.50 on coffee at Starbucks"
      ['1', '2', '.', '5', '0'] (by decide)).2⟩

/-! ## Claim C4: category classification -/

lemma maxCount_ge : ∀ (l : List (String × Nat)) (mx : Nat), mx ≤ maxCount l mx
  | [], _ => le_refl _
  | p :: t, mx =>
    le_trans (le_max_left mx p.2) (maxCount_ge t (max mx p.2))

lemma maxCount_attained : ∀ (l : List (String × Nat)) (mx : Nat),
    maxCount l mx = mx ∨ ∃ p ∈ l, p.2 = maxCount l mx
  | [], _ => Or.inl rfl
  | p :: t, mx => by
    have hstep : maxCount (p :: t) mx = maxCount t (max mx p.2) := rfl
    rcases maxCount_attained t (max mx p.2) with h | ⟨q, hq, hq2⟩
    · by_cases hp : p.2 ≤ mx
      · left
        rw [hstep, h, max_eq_left hp]
      · right
        refine ⟨p, List.mem_cons_self p t, ?_⟩
        rw [hstep, h, max_eq_right (le_of_not_le hp)]
    · exact Or.inr ⟨q, List.mem_cons_of_mem p hq, hstep ▸ hq2⟩

/-- The strict-improvement fold computes the maximum count together with the
first entry that attains it. -/
lemma foldl_bestStep : ∀ (l : List (String × Nat)) (b : String) (mx : Nat),
    (l.foldl bestStep (b, mx)).2 = maxCount l mx ∧
    (l.foldl bestStep (b, mx)).1 =
      (if maxCount l mx = mx then b
       else ((l.find? (fun p => p.2 = maxCount l mx)).map Prod.fst).getD b)
  | [], b, mx => ⟨rfl, by simp [maxCount]⟩
  | p :: t, b, mx => by
    have hstep : maxCount (p :: t) mx = maxCount t (max mx p.2) := rfl
    by_cases hp : p.2 > mx
    · have hf : bestStep (b, mx) p = (p.1, p.2) := by simp [bestStep, hp]
      have hmax : max mx p.2 = p.2 := max_eq_right (le_of_lt hp)
      obtain ⟨ih2, ih1⟩ := foldl_bestStep t p.1 p.2
      have hM : maxCount (p :: t) mx = maxCount t p.2 := by rw [hstep, hmax]
      have hMge : p.2 ≤ maxCount t p.2 := maxCount_ge t p.2
      have hMne : maxCount (p :: t) mx ≠ mx := by
        rw [hM]
        omega
      constructor
      · rw [List.foldl_cons, hf, hM]
        exact ih2
      · rw [List.foldl_cons, hf, if_neg hMne, ih1]
        by_cases hMp : maxCount t p.2 = p.2
        · rw [if_pos hMp, List.find?_cons_of_pos _ (by simp [hM, hMp])]
          simp
        · rw [if_neg hMp, List.find?_cons_of_neg _ (by simp [hM]; omega)]
          rcases maxCount_attained t p.2 with h | ⟨q, hq, hq2⟩
          · exact absurd h hMp
          · have hsome : (t.find? (fun x => x.2 = maxCount t p.2)).isSome := by
              rw [List.find?_isSome]
              exact ⟨q, hq, by simp [hq2]⟩
            rcases ho : t.find? (fun x => x.2 = maxCount t p.2) with _ | q2
            · rw [ho] at hsome
              simp at hsome
            · rw [hM, ho]
              simp
    · have hf : bestStep (b, mx) p = (b, mx) := by simp [bestStep, hp]
      have hmax : max mx p.2 = mx := max_eq_left (by omega)
      obtain ⟨ih2, ih1⟩ := foldl_bestStep t b mx
      have hM : maxCount (p :: t) mx = maxCount t mx := by rw [hstep, hmax]
      constructor
      · rw [List.foldl_cons, hf, hM]
        exact ih2
      · rw [List.foldl_cons, hf, ih1, hM]
        by_cases hMmx : maxCount t mx = mx
        · simp [hMmx]
        · have hgt : mx < maxCount t mx :=
            lt_of_le_of_ne (maxCount_ge t mx) (Ne.symm hMmx)
          rw [if_neg hMmx, if_neg hMmx,
            List.find?_cons_of_neg _ (by simp; omega)]

/-- The fold of the source, characterised: `'Other'` when the maximal count
is zero, otherwise the first-declared category attaining the maximal count. -/
lemma extractCategory_eq (lt : List Char) :
    extractCategory lt =
      (if maxCount (categoryCounts lt) 0 = 0 then "Other"
       else (((categoryCounts lt).find?
          (fun p => p.2 = maxCount (categoryCounts lt) 0)).map
            Prod.fst).getD "Other") := by
  obtain ⟨h2, h1⟩ := foldl_bestStep (categoryCounts lt) "Other" 0
  show (if (List.foldl bestStep ("Other", 0) (categoryCounts lt)).2 > 0
      then (List.foldl bestStep ("Other", 0) (categoryCounts lt)).1
      else "Other") = _
  by_cases hM : maxCount (categoryCounts lt) 0 = 0
  · have hz : (List.foldl bestStep ("Other", 0) (categoryCounts lt)).2 = 0 := by
      rw [h2, hM]
    rw [hz, if_neg (by omega), if_pos hM]
  · have hpos : (List.foldl bestStep ("Other", 0) (categoryCounts lt)).2 > 0 := by
      rw [h2]
      omega
    rw [if_pos hpos, h1, if_neg hM]

/-- C4: the extractor's category is exactly the spec's classification — the
transcript is lower-cased, each category's keywords are counted as substring
occurrences, the strictly highest count wins, ties keep the first-declared
category in the fixed declaration order, and a highest count of zero yields
`'Other'`. -/
theorem category_classification (t : String) :
    (parseTransactionFromText t).category = specCategory t := by
  show extractCategory (t.toList.map jsLower) = specCategory t
  rw [extractCategory_eq]
  simp only [specCategory]

/-! ## Claim C5: vendor selection -/

lemma getLast?_getD_cons : ∀ (l : List (List Char)) (a d : List Char),
    (a :: l).getLast?.getD d = l.getLast?.getD a
  | [], _, _ => rfl
  | b :: t, a, d => by
    rw [List.getLast?_cons_cons]
    rcases h : (b :: t).getLast? with _ | x
    · simp at h
    · rfl

lemma vendorLoop_eq : ∀ (ps : List RE) (cs v : List Char),
    vendorLoop ps cs v =
      (match ((ps.filterMap (fun p => vendorMatchOf p cs)).map
          cleanVendor).find? (fun w => w.length > 2) with
       | some w => w
       | none =>
         ((ps.filterMap (fun p => vendorMatchOf p cs)).map
            cleanVendor).getLast?.getD v)
  | [], cs, v => rfl
  | p :: ps, cs, v => by
    rw [vendorLoop]
    rcases hm : vendorMatchOf p cs with _ | m
    · simp only [List.filterMap_cons, hm]
      exact vendorLoop_eq ps cs v
    · simp only [List.filterMap_cons, hm, List.map_cons]
      by_cases hlen : (cleanVendor m).length > 2
      · rw [List.find?_cons_of_pos _ (by simp [hlen])]
        simp only [hlen, if_true]
      · rw [List.find?_cons_of_neg _ (by simp [hlen]), if_neg hlen,
          vendorLoop_eq ps cs (cleanVendor m)]
        rcases hf : ((ps.filterMap (fun p => vendorMatchOf p cs)).map
            cleanVendor).find? (fun w => w.length > 2) with _ | w
        · rw [hf, getLast?_getD_cons]
        · rw [hf]

/-- C5 (amended): the extracted vendor is the first vendor pattern's cleaned
capture of length greater than 2 (in the fixed pattern order) when such a
pattern exists; when every matching pattern yields only a trivial cleaned
capture, the vendor is the cleaned capture of the last matching pattern (not
`'Unknown'`); the vendor is `'Unknown'` exactly when no pattern matches with
a nonempty capture.  The returned field is this value truncated to 30
characters plus an ellipsis marker. -/
theorem vendor_selection_amended (t : String) :
    rawVendor t.toList = specVendor t.toList ∧
    (parseTransactionFromText t).vendor =
      String.mk (truncateVendor (specVendor t.toList)) := by
  have h := vendorLoop_eq vendorPatterns t.toList "Unknown".toList
  constructor
  · rw [rawVendor, h]
    simp only [specVendor, matchedVendors]
  · show String.mk (truncateVendor (rawVendor t.toList)) = _
    rw [rawVendor, h]
    simp only [specVendor, matchedVendors]

/-- Counterexample to C5 as stated: on `"went to ab."` the first pattern
captures `"ab"`, whose cleaned form has length 2 — so no pattern yields a
non-trivial match — yet the extracted vendor is `"ab"`, not `"Unknown"`. -/
theorem vendor_selection_cex :
    matchedVendors "went to ab.".toList = [['a', 'b']] ∧
    ((matchedVendors "went to ab.".toList).map cleanVendor).find?
      (fun w => w.length > 2) = none ∧
    (parseTransactionFromText "went to ab.").vendor = "ab" ∧
    ("ab" : String) ≠ "Unknown" := by
  refine ⟨by decide, by decide, by decide, by decide⟩

/-! ## Claim C6: the confidence score -/

lemma rawAmount_natDiv100 (cs : List Char) :
    ∃ n : ℕ, rawAmount cs = (n : ℚ) / 100 := by
  rcases h : firstCurrencyToken cs with _ | g
  · rcases hf : amountPatterns.findSome? (fun p => reSearch p cs) with _ | st
    · refine ⟨0, ?_⟩
      simp only [rawAmount, h, amountFallback, hf]
      norm_num
    · refine ⟨digitsToNat (st.gA.getD []) * 100 + digitsToNat (st.gB.getD []),
        ?_⟩
      simp only [rawAmount, h, amountFallback, hf, patAmount]
      push_cast
      field_simp
  · obtain ⟨n, hn⟩ := (parseFloatQ_eq_tokenValue (firstCurrencyToken_shape h)).2
    refine ⟨n, ?_⟩
    simp only [rawAmount, h]
    exact hn

/-- The amount the extractor reports is always an exact multiple of 1/100, so
the final 2-decimal rounding is the identity on it. -/
lemma round2_rawAmount (cs : List Char) :
    round2 (rawAmount cs) = rawAmount cs := by
  obtain ⟨n, hn⟩ := rawAmount_natDiv100 cs
  rw [hn, round2_natDiv100]

lemma truncate_unknown_iff (v : List Char) :
    String.mk (truncateVendor v) = "Unknown" ↔ v = "Unknown".toList := by
  constructor
  · intro h
    have hd : truncateVendor v = "Unknown".toList := congrArg String.data h
    by_cases hl : v.length > 30
    · exfalso
      have hlen := congrArg List.length hd
      rw [truncateVendor, if_pos hl] at hlen
      simp at hlen
      omega
    · rwa [truncateVendor, if_neg hl] at hd
  · intro h
    subst h
    decide

/-- C6: the extractor is total — it returns a structured result for every
transcript — and its confidence is exactly
`min 1 (0.5 + 0.3·[amount > 0] + 0.2·[vendor ≠ "Unknown"] +
0.2·[category ≠ "Other"])`, which always lies between 0.5 and 1. -/
theorem confidence_formula (t : String) :
    (parseTransactionFromText t).parseConfidence =
      min 1 (1 / 2 +
        (if (parseTransactionFromText t).amount > 0 then 3 / 10 else 0) +
        (if (parseTransactionFromText t).vendor ≠ "Unknown" then 1 / 5 else 0) +
        (if (parseTransactionFromText t).category ≠ "Other" then 1 / 5 else 0)) ∧
    1 / 2 ≤ (parseTransactionFromText t).parseConfidence ∧
    (parseTransactionFromText t).parseConfidence ≤ 1 := by
  have hconf : (parseTransactionFromText t).parseConfidence =
      min (1 / 2 +
        (if rawAmount t.toList > 0 then (3 : ℚ) / 10 else 0) +
        (if rawVendor t.toList ≠ "Unknown".toList then (1 : ℚ) / 5 else 0) +
        (if extractCategory (t.toList.map jsLower) ≠ "Other" then (1 : ℚ) / 5
          else 0)) 1 := rfl
  have hAmtEq : (parseTransactionFromText t).amount = rawAmount t.toList :=
    round2_rawAmount t.toList
  have hVeq : (parseTransactionFromText t).vendor =
      String.mk (truncateVendor (rawVendor t.toList)) := rfl
  have hCeq : (parseTransactionFromText t).category =
      extractCategory (t.toList.map jsLower) := rfl
  refine ⟨?_, ?_, ?_⟩
  · rw [hconf, min_comm, hAmtEq, hVeq, hCeq]
    simp only [ne_eq, truncate_unknown_iff]
  · rw [hconf]
    refine le_min ?_ (by norm_num)
    split_ifs <;> norm_num
  · rw [hconf]
    exact min_le_right _ _
